import Mathlib

/-!
Shallow embedding of `models/mri_model.py` (class `MRIModel`) and proofs about it.

Modelling conventions:
* numpy arrays of floats are modelled as flat lists of rationals (`Image := List ℚ`);
  a stacked volume is a `List Image`.
* python dicts built with `defaultdict(list)` are modelled as association lists
  `List (String × List β)` in key-insertion order, with `updAssoc` appending a value
  to a key's bucket exactly as `d[k].append(v)` does.
* filesystem paths (`pathlib.Path` and the `/` operator) are lists of path segments.
* exceptions are modelled with `Except PyErr`; code that cannot raise is a total function.
* the in-place numpy mutation performed by `_visualize`/`_normalize`
  (`image -= image.min()` on a view of the stored array) is modelled by explicit
  state passing: `_visualize` returns the updated list of logs together with the
  images it sends to the logger, and `validation_end` feeds that updated list to
  `_evaluate`, exactly mirroring the aliasing in the python code.
* the external collaborators (`SliceData`, `DistributedSampler`, `DataLoader`,
  `save_reconstructions`, the metric functions `evaluate.nmse/ssim/psnr`) are not
  part of this module; they appear as records of the arguments handed to them, and
  the metric functions are abstract parameters.
-/

namespace MRIModel

/-- A numpy array of floats, flattened: the element values are what matters here. -/
abbrev Image := List ℚ

/-- Exceptions that the embedded code can raise itself. -/
inductive PyErr where
  | notImplementedError
  | valueError
  deriving DecidableEq, Repr

/-- The hyperparameter record `self.hparams` (only the fields this module reads). -/
structure HParams where
  sample_rate : ℚ
  batch_size : ℕ
  data_path : List String
  challenge : String
  exp_dir : List String
  exp : String
  deriving DecidableEq, Repr

/-- Arguments handed to the external `SliceData` dataset constructor. -/
structure SliceData (T : Type) where
  root : List String
  transform : T
  sample_rate : ℚ
  challenge : String
  deriving DecidableEq, Repr

/-- The sampler handed to the external `DataLoader`: always a `DistributedSampler`
over the dataset. -/
inductive Sampler (T : Type) where
  | distributed (dataset : SliceData T)
  deriving DecidableEq, Repr

/-- Arguments handed to the external `DataLoader` constructor. -/
structure DataLoader (T : Type) where
  dataset : SliceData T
  batch_size : ℕ
  num_workers : ℕ
  pin_memory : Bool
  sampler : Sampler T
  deriving DecidableEq, Repr

/-- Python's `x or y` on the `sample_rate` float argument: `None` and `0.0` are
falsy and are replaced by the default. -/
def pyOrSampleRate (sample_rate : Option ℚ) (default : ℚ) : ℚ :=
  match sample_rate with
  | none => default
  | some x => if x = 0 then default else x

/-- `MRIModel._create_data_loader`. -/
def _create_data_loader {T : Type} (hp : HParams) (data_transform : T)
    (data_partition : String) (sample_rate : Option ℚ) : DataLoader T :=
  let sr := pyOrSampleRate sample_rate hp.sample_rate
  let dataset : SliceData T :=
    { root := hp.data_path ++ [hp.challenge ++ "_" ++ data_partition]
      transform := data_transform
      sample_rate := sr
      challenge := hp.challenge }
  { dataset := dataset
    batch_size := hp.batch_size
    num_workers := 8
    pin_memory := true
    sampler := Sampler.distributed dataset }

/-- The three data-transform hooks, as a record: subclasses override them, the base
class raises `NotImplementedError` (see `baseHooks`). -/
structure TransformHooks (T : Type) where
  train_data_transform : Except PyErr T
  val_data_transform : Except PyErr T
  test_data_transform : Except PyErr T

/-- The base-class implementations `MRIModel.train_data_transform` /
`val_data_transform` / `test_data_transform`: each is a bare
`raise NotImplementedError`. -/
def baseHooks (T : Type) : TransformHooks T :=
  { train_data_transform := Except.error PyErr.notImplementedError
    val_data_transform := Except.error PyErr.notImplementedError
    test_data_transform := Except.error PyErr.notImplementedError }

/-- `MRIModel.train_dataloader`: evaluates `self.train_data_transform()` (which may
raise) and builds the loader for the train partition with the default sample rate. -/
def train_dataloader {T : Type} (hooks : TransformHooks T) (hp : HParams) :
    Except PyErr (DataLoader T) :=
  hooks.train_data_transform.bind fun t =>
    Except.ok (_create_data_loader hp t ("train") none)

/-- `MRIModel.val_dataloader`. -/
def val_dataloader {T : Type} (hooks : TransformHooks T) (hp : HParams) :
    Except PyErr (DataLoader T) :=
  hooks.val_data_transform.bind fun t =>
    Except.ok (_create_data_loader hp t ("val") none)

/-- `MRIModel.test_dataloader`: passes `sample_rate=1.`. -/
def test_dataloader {T : Type} (hooks : TransformHooks T) (hp : HParams) :
    Except PyErr (DataLoader T) :=
  hooks.test_data_transform.bind fun t =>
    Except.ok (_create_data_loader hp t ("test") (some 1))

/-! ### Validation / test logs and the `defaultdict` bookkeeping of `_evaluate` -/

/-- One entry of the `val_logs` / `test_logs` list: the dictionary returned by a
single validation/test step for one batch.  `output` and `target` are per-batch
lists of slice images; `fname` and `slice` identify each batch element. -/
structure ValLog where
  val_loss : ℚ
  fname : List String
  slice : List ℕ
  output : List Image
  target : List Image
  deriving DecidableEq, Repr, Inhabited

/-- A log is well formed when the batched fields have equal lengths, so that
`log['output'][i]` / `log['target'][i]` exist for every `i` produced by
`enumerate(zip(log['fname'], log['slice']))`. -/
def WFLog (log : ValLog) : Prop :=
  log.slice.length = log.fname.length ∧
  log.output.length = log.fname.length ∧
  log.target.length = log.fname.length

instance : DecidablePred WFLog := fun log => by unfold WFLog; infer_instance

/-- The `(fname, (slice, output[i]))` triples contributed by one log, in loop order:
`for i, (fname, slice) in enumerate(zip(log['fname'], log['slice']))`. -/
def logEntriesO (log : ValLog) : List (String × ℕ × Image) :=
  (log.fname.zip log.slice).enum.map fun p => (p.2.1, p.2.2, log.output.getD p.1 [])

/-- Same as `logEntriesO`, reading `log['target'][i]` instead. -/
def logEntriesT (log : ValLog) : List (String × ℕ × Image) :=
  (log.fname.zip log.slice).enum.map fun p => (p.2.1, p.2.2, log.target.getD p.1 [])

/-- `d[k].append(v)` on a `defaultdict(list)` kept in key-insertion order. -/
def updAssoc {β : Type} (m : List (String × List β)) (k : String) (v : β) :
    List (String × List β) :=
  match m with
  | [] => [(k, [v])]
  | (k', vs) :: rest =>
      if k' = k then (k', vs ++ [v]) :: rest else (k', vs) :: updAssoc rest k v

/-- Reading `d[k]` from the accumulated dictionary (empty bucket when absent). -/
def lookupA {β : Type} : List (String × List β) → String → List β
  | [], _ => []
  | (k, vs) :: m, f => if k = f then vs else lookupA m f

/-- The keys of the accumulated dictionary, in insertion order
(python dict iteration order). -/
def keysA {β : Type} (m : List (String × List β)) : List String :=
  m.map Prod.fst

/-- Run a list of `(fname, value)` appends against the dictionary. -/
def accEntries {β : Type} (m : List (String × List β)) (es : List (String × β)) :
    List (String × List β) :=
  es.foldl (fun m e => updAssoc m e.1 e.2) m

/-- The `outputs` defaultdict after the first loop of `_evaluate` (and the loop of
`test_end`, which is the same bookkeeping). -/
def outputsMap (logs : List ValLog) : List (String × List (ℕ × Image)) :=
  logs.foldl (fun m log => accEntries m (logEntriesO log)) []

/-- The `targets` defaultdict after the first loop of `_evaluate`. -/
def targetsMap (logs : List ValLog) : List (String × List (ℕ × Image)) :=
  logs.foldl (fun m log => accEntries m (logEntriesT log)) []

/-- `sorted(pairs)` on `(slice, array)` pairs: python compares tuples
lexicographically, which for the distinct slice indices of one file is an
ascending stable sort on the slice index. -/
def sortPairs (l : List (ℕ × Image)) : List (ℕ × Image) :=
  l.mergeSort fun a b => a.1 ≤ b.1

/-- `np.stack([arr for _, arr in sorted(pairs)])`. -/
def stackSorted (l : List (ℕ × Image)) : List Image :=
  (sortPairs l).map Prod.snd

/-- `np.mean` of a list of scalars. -/
def npMean (l : List ℚ) : ℚ := l.sum / l.length

/-- The metrics dictionary after the final comprehension of `_evaluate`. -/
structure Metrics where
  val_loss : ℚ
  nmse : ℚ
  ssim : ℚ
  psnr : ℚ
  deriving DecidableEq, Repr

/-- The dictionary `dict(log=metrics, **metrics)` returned by `_evaluate`. -/
structure EvalResult where
  log : Metrics
  val_loss : ℚ
  nmse : ℚ
  ssim : ℚ
  psnr : ℚ
  deriving DecidableEq, Repr

/-- `MRIModel._evaluate`, parametrised by the external metric functions
`evaluate.nmse`, `evaluate.ssim`, `evaluate.psnr` (each applied as
`metric(target_volume, output_volume)`). -/
def _evaluate (nmseF ssimF psnrF : List Image → List Image → ℚ)
    (val_logs : List ValLog) : EvalResult :=
  let losses := val_logs.map fun log => log.val_loss
  let outputs := outputsMap val_logs
  let targets := targetsMap val_logs
  let fnames := keysA outputs
  let nmses := fnames.map fun f => nmseF (stackSorted (lookupA targets f)) (stackSorted (lookupA outputs f))
  let ssims := fnames.map fun f => ssimF (stackSorted (lookupA targets f)) (stackSorted (lookupA outputs f))
  let psnrs := fnames.map fun f => psnrF (stackSorted (lookupA targets f)) (stackSorted (lookupA outputs f))
  let metrics : Metrics :=
    { val_loss := npMean losses
      nmse := npMean nmses
      ssim := npMean ssims
      psnr := npMean psnrs }
  { log := metrics
    val_loss := metrics.val_loss
    nmse := metrics.nmse
    ssim := metrics.ssim
    psnr := metrics.psnr }

/-! ### `_visualize` and its in-place mutation -/

/-- Minimum element of an array (`image.min()`); 0 for the empty array, on which
numpy would raise instead. -/
def listMin (l : List ℚ) : ℚ :=
  match l with
  | [] => 0
  | x :: xs => xs.foldl min x

/-- Maximum element of an array (`image.max()`). -/
def listMax (l : List ℚ) : ℚ :=
  match l with
  | [] => 0
  | x :: xs => xs.foldl max x

/-- The in-place effect of `_normalize` on the stored array: `image[np.newaxis]`
is a view, so `image -= image.min()` shifts the underlying array itself. -/
def shiftMin (img : Image) : Image :=
  img.map fun x => x - listMin img

/-- The value `_normalize` returns: the shifted image divided by its maximum
(a fresh array; the division is not in place). -/
def normalizeRet (img : Image) : Image :=
  (shiftMin img).map fun x => x / listMax (shiftMin img)

/-- What `_normalize(val_logs[i]['output'][0])` does to the stored log: element 0
of the batch array is shifted in place (the same for `target`). -/
def mutateLog (log : ValLog) : ValLog :=
  { log with
    output := log.output.set 0 (shiftMin (log.output.headD []))
    target := log.target.set 0 (shiftMin (log.target.headD [])) }

/-- Replace the element at one index of a list by `f` of it. -/
def modifyAt {α : Type} (f : α → α) : ℕ → List α → List α
  | _, [] => []
  | 0, x :: xs => f x :: xs
  | n + 1, x :: xs => x :: modifyAt f n xs

/-- `range(0, n, step)` for `step > 0`: the indices `_visualize` samples. -/
def sampleIdxs (n step : ℕ) : List ℕ :=
  (List.range ((n + step - 1) / step)).map (· * step)

/-- An image-grid logging call `self.logger.experiment.add_image(tag, grid)`,
recorded with the list of images stacked into the grid. -/
structure ImageLog where
  tag : String
  images : List Image
  deriving DecidableEq, Repr

/-- `np.abs(targets - outputs)` on two stacks of images. -/
def absDiff (ts os : List Image) : List Image :=
  ts.zipWith (fun t o => t.zipWith (fun a b => |a - b|) o) os

/-- `MRIModel._visualize`: computes `step = (len(val_logs) + 15) // 16`; when the
step is zero `range` raises `ValueError`.  Otherwise it walks the sampled indices,
mutating each sampled log in place via `_normalize` and collecting the normalized
images, then logs the `Target`, `Reconstruction` and `Error` grids in that order.
Returns the mutated log list (the state `validation_end` goes on to evaluate)
together with the logging calls made. -/
def _visualize (val_logs : List ValLog) :
    Except PyErr (List ValLog × List ImageLog) :=
  let num_logs := val_logs.length
  let step := (num_logs + 15) / 16
  if step = 0 then Except.error PyErr.valueError
  else
    let idxs := sampleIdxs num_logs step
    let logs' := idxs.foldl (fun ls i => modifyAt mutateLog i ls) val_logs
    let outputs := idxs.map fun i => normalizeRet ((val_logs.getD i default).output.headD [])
    let targets := idxs.map fun i => normalizeRet ((val_logs.getD i default).target.headD [])
    Except.ok (logs', [{ tag := "Target", images := targets },
                       { tag := "Reconstruction", images := outputs },
                       { tag := "Error", images := absDiff targets outputs }])

/-- `MRIModel.validation_end`: runs `_visualize` first (which may raise, and which
mutates the log list in place), then `_evaluate` on the same — now mutated — list. -/
def validation_end (nmseF ssimF psnrF : List Image → List Image → ℚ)
    (val_logs : List ValLog) : Except PyErr (EvalResult × List ImageLog) :=
  (_visualize val_logs).bind fun p =>
    Except.ok (_evaluate nmseF ssimF psnrF p.1, p.2)

/-! ### `test_end` -/

/-- The call `save_reconstructions(outputs, path)` made by `test_end`, recorded
with its arguments: the per-filename volumes in dict order and the output
directory as path segments. -/
structure SaveCall where
  volumes : List (String × List Image)
  dir : List String
  deriving DecidableEq, Repr

/-- `MRIModel.test_end`: the same group-by-filename bookkeeping as `_evaluate`
restricted to outputs, then each bucket is sorted by slice and stacked, the dict
is saved to `hparams.exp_dir / hparams.exp / 'reconstructions'`, and an empty
dict is returned (modelled as the empty association list). -/
def test_end (hp : HParams) (test_logs : List ValLog) :
    SaveCall × List (String × ℚ) :=
  let outputs := outputsMap test_logs
  let vols := (keysA outputs).map fun f => (f, stackSorted (lookupA outputs f))
  ({ volumes := vols, dir := hp.exp_dir ++ [hp.exp, "reconstructions"] }, [])

/-! ### Specification-side characterisation of the grouping -/

/-- The whole stream of `(fname, (slice, output[i]))` triples, over all logs in
order: the spec-side view of what the first loop of `_evaluate` consumes. -/
def allEntriesO (logs : List ValLog) : List (String × ℕ × Image) :=
  logs.flatMap logEntriesO

/-- The stream of `(fname, (slice, target[i]))` triples. -/
def allEntriesT (logs : List ValLog) : List (String × ℕ × Image) :=
  logs.flatMap logEntriesT

/-- Folding the key-insertion step over a list of keys; used to show the keys of
the accumulated dictionary depend only on the key stream. -/
def keysFold (ks : List String) (l : List String) : List String :=
  l.foldl (fun ks k => if k ∈ ks then ks else ks ++ [k]) ks

lemma lookupA_updAssoc {β : Type} (m : List (String × List β)) (k f : String) (v : β) :
    lookupA (updAssoc m k v) f = if f = k then lookupA m k ++ [v] else lookupA m f := by
  induction m with
  | nil =>
      by_cases h : f = k
      · subst h
        simp [updAssoc, lookupA]
      · have h' : ¬ k = f := fun hh => h hh.symm
        simp [updAssoc, lookupA, h, h']
  | cons p m ih =>
      obtain ⟨k', vs⟩ := p
      by_cases h1 : k' = k
      · subst h1
        by_cases h2 : f = k'
        · subst h2
          simp [updAssoc, lookupA]
        · have h2' : ¬ k' = f := fun hh => h2 hh.symm
          simp [updAssoc, lookupA, h2, h2']
      · by_cases h2 : f = k'
        · subst h2
          have h1' : ¬ k = f := fun hh => h1 hh.symm
          simp [updAssoc, lookupA, h1, h1']
        · have h2' : ¬ k' = f := fun hh => h2 hh.symm
          have hl : updAssoc ((k', vs) :: m) k v = (k', vs) :: updAssoc m k v := by
            simp [updAssoc, h1]
          rw [hl]
          show (if k' = f then vs else lookupA (updAssoc m k v) f) = _
          rw [if_neg h2', ih]
          by_cases h3 : f = k <;> simp [lookupA, h3, h1, h2']

lemma keysA_updAssoc {β : Type} (m : List (String × List β)) (k : String) (v : β) :
    keysA (updAssoc m k v) = if k ∈ keysA m then keysA m else keysA m ++ [k] := by
  induction m with
  | nil => simp [updAssoc, keysA]
  | cons p m ih =>
      obtain ⟨k', vs⟩ := p
      by_cases h : k' = k
      · subst h
        simp [updAssoc, keysA]
      · simp only [updAssoc, if_neg h, keysA, List.map_cons] at ih ⊢
        rw [ih]
        by_cases hm : k ∈ List.map Prod.fst m <;>
          simp [hm, Ne.symm h]

lemma accEntries_cons {β : Type} (m : List (String × List β)) (e : String × β)
    (es : List (String × β)) :
    accEntries m (e :: es) = accEntries (updAssoc m e.1 e.2) es := rfl

lemma accEntries_append {β : Type} (m : List (String × List β))
    (a b : List (String × β)) :
    accEntries m (a ++ b) = accEntries (accEntries m a) b :=
  List.foldl_append _ _ a b

lemma lookupA_accEntries {β : Type} (es : List (String × β))
    (m : List (String × List β)) (f : String) :
    lookupA (accEntries m es) f
      = lookupA m f ++ (es.filter fun e => e.1 = f).map (fun e => e.2) := by
  induction es generalizing m with
  | nil => simp [accEntries]
  | cons e es ih =>
      rw [accEntries_cons, ih, lookupA_updAssoc]
      by_cases h : e.1 = f
      · subst h
        simp [List.filter_cons]
      · have h' : ¬ f = e.1 := fun hh => h hh.symm
        simp [List.filter_cons, h, h']

lemma keysA_accEntries {β : Type} (es : List (String × β))
    (m : List (String × List β)) :
    keysA (accEntries m es) = keysFold (keysA m) (es.map fun e => e.1) := by
  induction es generalizing m with
  | nil => rfl
  | cons e es ih =>
      rw [accEntries_cons, ih, keysA_updAssoc]
      rfl

lemma mem_keysFold (l : List String) (ks : List String) (f : String) :
    f ∈ keysFold ks l ↔ f ∈ ks ∨ f ∈ l := by
  induction l generalizing ks with
  | nil => simp [keysFold]
  | cons k l ih =>
      show f ∈ keysFold (if k ∈ ks then ks else ks ++ [k]) l ↔ _
      rw [ih]
      by_cases h : k ∈ ks <;> by_cases hf : f = k <;> simp [h, hf]

lemma nodup_keysFold (l : List String) (ks : List String) (h : ks.Nodup) :
    (keysFold ks l).Nodup := by
  induction l generalizing ks with
  | nil => exact h
  | cons k l ih =>
      show (keysFold (if k ∈ ks then ks else ks ++ [k]) l).Nodup
      by_cases hk : k ∈ ks
      · simpa [hk] using ih ks h
      · refine ih _ ?_
        simp [List.nodup_append, h, hk]

lemma outputsMap_foldl (logs : List ValLog) :
    ∀ m, logs.foldl (fun m log => accEntries m (logEntriesO log)) m
      = accEntries m (logs.flatMap logEntriesO) := by
  induction logs with
  | nil => intro m; rfl
  | cons log logs ih =>
      intro m
      rw [List.foldl_cons, ih, List.flatMap_cons, accEntries_append]

lemma targetsMap_foldl (logs : List ValLog) :
    ∀ m, logs.foldl (fun m log => accEntries m (logEntriesT log)) m
      = accEntries m (logs.flatMap logEntriesT) := by
  induction logs with
  | nil => intro m; rfl
  | cons log logs ih =>
      intro m
      rw [List.foldl_cons, ih, List.flatMap_cons, accEntries_append]

lemma outputsMap_eq (logs : List ValLog) :
    outputsMap logs = accEntries [] (allEntriesO logs) :=
  outputsMap_foldl logs []

lemma targetsMap_eq (logs : List ValLog) :
    targetsMap logs = accEntries [] (allEntriesT logs) :=
  targetsMap_foldl logs []

/-- The bucket of a filename is exactly its subsequence of the entry stream. -/
lemma lookupA_outputsMap (logs : List ValLog) (f : String) :
    lookupA (outputsMap logs) f
      = ((allEntriesO logs).filter fun e => e.1 = f).map (fun e => e.2) := by
  rw [outputsMap_eq, lookupA_accEntries]
  rfl

lemma lookupA_targetsMap (logs : List ValLog) (f : String) :
    lookupA (targetsMap logs) f
      = ((allEntriesT logs).filter fun e => e.1 = f).map (fun e => e.2) := by
  rw [targetsMap_eq, lookupA_accEntries]
  rfl

/-- The filenames with a volume are exactly the distinct filenames of the logs. -/
lemma mem_keysA_outputsMap (logs : List ValLog) (f : String) :
    f ∈ keysA (outputsMap logs) ↔ f ∈ (allEntriesO logs).map (fun e => e.1) := by
  rw [outputsMap_eq, keysA_accEntries, mem_keysFold]
  simp [keysA]

lemma nodup_keysA_outputsMap (logs : List ValLog) :
    (keysA (outputsMap logs)).Nodup := by
  rw [outputsMap_eq, keysA_accEntries]
  exact nodup_keysFold _ _ (by simp [keysA])

/-- `sorted` permutes the bucket. -/
lemma sortPairs_perm (l : List (ℕ × Image)) : (sortPairs l).Perm l :=
  List.mergeSort_perm l _

/-- `sorted` yields ascending slice indices. -/
lemma sortPairs_sorted (l : List (ℕ × Image)) :
    (sortPairs l).Pairwise (fun a b => a.1 ≤ b.1) := by
  have h := @List.sorted_mergeSort (ℕ × Image) (fun a b => a.1 ≤ b.1)
    (fun a b c hab hbc => by
      simp only [decide_eq_true_eq] at hab hbc ⊢
      omega)
    (fun a b => by
      simp only [Bool.or_eq_true, decide_eq_true_eq]
      omega) l
  exact h.imp fun hab => of_decide_eq_true hab

/-! ### The in-place update performed by `_visualize`, named -/

/-- The state of the log list after `_visualize` has walked the sampled indices,
shifting each sampled entry in place. -/
def visLogs (logs : List ValLog) : List ValLog :=
  (sampleIdxs logs.length ((logs.length + 15) / 16)).foldl
    (fun ls i => modifyAt mutateLog i ls) logs

/-- The three image-grid logging calls `_visualize` makes, in call order. -/
def visImageLogs (logs : List ValLog) : List ImageLog :=
  let idxs := sampleIdxs logs.length ((logs.length + 15) / 16)
  let outputs := idxs.map fun i => normalizeRet ((logs.getD i default).output.headD [])
  let targets := idxs.map fun i => normalizeRet ((logs.getD i default).target.headD [])
  [{ tag := "Target", images := targets },
   { tag := "Reconstruction", images := outputs },
   { tag := "Error", images := absDiff targets outputs }]

lemma length_modifyAt {α : Type} (f : α → α) (j : ℕ) (l : List α) :
    (modifyAt f j l).length = l.length := by
  induction l generalizing j with
  | nil => cases j <;> rfl
  | cons x xs ih =>
      cases j with
      | zero => rfl
      | succ n => simp [modifyAt, ih]

lemma getD_modifyAt_ne {α : Type} (f : α → α) (i j : ℕ) (l : List α) (d : α)
    (h : i ≠ j) : (modifyAt f j l).getD i d = l.getD i d := by
  induction l generalizing i j with
  | nil => cases j <;> rfl
  | cons x xs ih =>
      cases j with
      | zero =>
          cases i with
          | zero => exact absurd rfl h
          | succ m => simp [modifyAt]
      | succ n =>
          cases i with
          | zero => simp [modifyAt]
          | succ m =>
              show (x :: modifyAt f n xs).getD (m + 1) d = _
              rw [List.getD_cons_succ, List.getD_cons_succ]
              exact ih m n fun hh => h (by omega)

lemma getD_modifyAt_self {α : Type} (f : α → α) (i : ℕ) (l : List α) (d : α)
    (h : i < l.length) : (modifyAt f i l).getD i d = f (l.getD i d) := by
  induction l generalizing i with
  | nil => simp at h
  | cons x xs ih =>
      cases i with
      | zero => rfl
      | succ m =>
          show (x :: modifyAt f m xs).getD (m + 1) d = _
          rw [List.getD_cons_succ, List.getD_cons_succ]
          exact ih m (by simpa using h)

lemma map_modifyAt {α β : Type} (f : α → α) (g : α → β) (hg : ∀ x, g (f x) = g x)
    (j : ℕ) (l : List α) : (modifyAt f j l).map g = l.map g := by
  induction l generalizing j with
  | nil => cases j <;> rfl
  | cons x xs ih =>
      cases j with
      | zero => simp [modifyAt, hg]
      | succ n => simp [modifyAt, ih]

lemma foldl_modifyAt_length {α : Type} (f : α → α) (idxs : List ℕ) (l : List α) :
    (idxs.foldl (fun ls j => modifyAt f j ls) l).length = l.length := by
  induction idxs generalizing l with
  | nil => rfl
  | cons j idxs ih =>
      rw [List.foldl_cons, ih, length_modifyAt]

lemma foldl_modifyAt_map {α β : Type} (f : α → α) (g : α → β) (hg : ∀ x, g (f x) = g x)
    (idxs : List ℕ) (l : List α) :
    (idxs.foldl (fun ls j => modifyAt f j ls) l).map g = l.map g := by
  induction idxs generalizing l with
  | nil => rfl
  | cons j idxs ih =>
      rw [List.foldl_cons, ih, map_modifyAt f g hg]

lemma foldl_modifyAt_not_mem {α : Type} (f : α → α) (idxs : List ℕ) (l : List α)
    (i : ℕ) (d : α) (hi : i ∉ idxs) :
    (idxs.foldl (fun ls j => modifyAt f j ls) l).getD i d = l.getD i d := by
  induction idxs generalizing l with
  | nil => rfl
  | cons j idxs ih =>
      rw [List.foldl_cons, ih _ fun hh => hi (List.mem_cons.mpr (Or.inr hh)),
        getD_modifyAt_ne f i j l d fun hh => hi (List.mem_cons.mpr (Or.inl hh))]

lemma foldl_modifyAt_mem {α : Type} (f : α → α) (idxs : List ℕ) (l : List α)
    (i : ℕ) (d : α) (hnd : idxs.Nodup) (hi : i ∈ idxs) (hlt : i < l.length) :
    (idxs.foldl (fun ls j => modifyAt f j ls) l).getD i d = f (l.getD i d) := by
  induction idxs generalizing l with
  | nil => cases hi
  | cons j idxs ih =>
      rw [List.foldl_cons]
      rcases List.mem_cons.mp hi with h | h
      · subst h
        rw [foldl_modifyAt_not_mem f idxs _ i d (List.nodup_cons.mp hnd).1,
          getD_modifyAt_self f i l d hlt]
      · rw [ih (modifyAt f j l) (List.nodup_cons.mp hnd).2 h
            (by rw [length_modifyAt]; exact hlt),
          getD_modifyAt_ne f i j l d fun hh => (List.nodup_cons.mp hnd).1 (hh ▸ h)]

lemma nodup_sampleIdxs (n step : ℕ) : (sampleIdxs n step).Nodup := by
  rcases Nat.eq_zero_or_pos step with h | h
  · subst h
    simp [sampleIdxs]
  · exact (List.nodup_range _).map fun a b hab =>
      Nat.eq_of_mul_eq_mul_right h hab

lemma mem_sampleIdxs_lt {n step i : ℕ} (hi : i ∈ sampleIdxs n step) : i < n := by
  simp only [sampleIdxs, List.mem_map, List.mem_range] at hi
  obtain ⟨k, hk, rfl⟩ := hi
  rcases Nat.eq_zero_or_pos step with hs | hs
  · subst hs
    simp at hk
  · have h1 : ((n + step - 1) / step) * step ≤ n + step - 1 := Nat.div_mul_le_self _ _
    have h3 : step ≤ n + step - 1 := by
      by_contra hc
      push_neg at hc
      have h0 : (n + step - 1) / step = 0 := Nat.div_eq_of_lt hc
      omega
    have h4 : (k + 1) * step ≤ ((n + step - 1) / step) * step :=
      Nat.mul_le_mul_right step hk
    have h7 : k * step + step ≤ n + step - 1 := by
      calc k * step + step = (k + 1) * step := by ring
        _ ≤ ((n + step - 1) / step) * step := h4
        _ ≤ n + step - 1 := h1
    have h8 : 1 ≤ n := by omega
    omega

/-- When the stride is at most 16 entries are sampled:
`ceil(n / ceil(n/16)) ≤ 16`. -/
lemma sampleIdxs_length_le (n : ℕ) (hn : 0 < n) :
    (sampleIdxs n ((n + 15) / 16)).length ≤ 16 := by
  have hstep : 0 < (n + 15) / 16 := by omega
  have h16 : n ≤ 16 * ((n + 15) / 16) := by omega
  simp only [sampleIdxs, List.length_map, List.length_range]
  have hlt : n + (n + 15) / 16 - 1 < 17 * ((n + 15) / 16) := by omega
  have h := (Nat.div_lt_iff_lt_mul hstep).mpr (by omega :
    n + (n + 15) / 16 - 1 < 17 * ((n + 15) / 16))
  omega

/-- For a non-empty log list `_visualize` succeeds, returning the mutated logs and
the three grids. -/
lemma _visualize_eq (logs : List ValLog) (h : logs ≠ []) :
    _visualize logs = Except.ok (visLogs logs, visImageLogs logs) := by
  have hn : 0 < logs.length := List.length_pos.mpr h
  have hstep : ¬ (logs.length + 15) / 16 = 0 := by omega
  simp only [_visualize, if_neg hstep]
  rfl

/-! ### What the in-place mutation does and does not change -/

/-- The filename stream of one log's entries does not depend on the image data. -/
lemma entriesO_fst (log : ValLog) :
    (logEntriesO log).map (fun e => e.1) = (log.fname.zip log.slice).map Prod.fst := by
  unfold logEntriesO
  rw [List.map_map]
  have h : ((log.fname.zip log.slice).enum.map Prod.snd).map Prod.fst
      = (log.fname.zip log.slice).map Prod.fst := by
    rw [List.enum_map_snd]
  rw [← h, List.map_map]
  rfl

/-- `_normalize`'s in-place shift leaves `val_loss` untouched. -/
lemma val_loss_mutateLog (log : ValLog) : (mutateLog log).val_loss = log.val_loss := rfl

/-- `_normalize`'s in-place shift leaves the filename stream untouched. -/
lemma entriesO_fst_mutateLog (log : ValLog) :
    (logEntriesO (mutateLog log)).map (fun e => e.1)
      = (logEntriesO log).map (fun e => e.1) := by
  rw [entriesO_fst, entriesO_fst]
  rfl

/-- The mutated log list reports the same per-batch losses. -/
lemma visLogs_map_val_loss (logs : List ValLog) :
    (visLogs logs).map (fun log => log.val_loss) = logs.map (fun log => log.val_loss) :=
  foldl_modifyAt_map mutateLog _ val_loss_mutateLog _ logs

/-- The mutated log list produces the same filename stream. -/
lemma visLogs_entries_fst (logs : List ValLog) :
    (allEntriesO (visLogs logs)).map (fun e => e.1)
      = (allEntriesO logs).map (fun e => e.1) := by
  unfold allEntriesO
  rw [List.map_flatMap, List.map_flatMap, List.flatMap_def, List.flatMap_def]
  have h : (visLogs logs).map (fun log => (logEntriesO log).map fun e => e.1)
      = logs.map (fun log => (logEntriesO log).map fun e => e.1) :=
    foldl_modifyAt_map mutateLog _ entriesO_fst_mutateLog _ logs
  rw [h]

/-- The keys of the accumulated dictionary depend only on the filename stream, so
`_evaluate` after `_visualize` still sees one volume per distinct filename of the
original logs. -/
lemma keysA_outputsMap_visLogs (logs : List ValLog) :
    keysA (outputsMap (visLogs logs)) = keysA (outputsMap logs) := by
  rw [outputsMap_eq, outputsMap_eq, keysA_accEntries, keysA_accEntries,
    visLogs_entries_fst]

/-! ### Claim theorems -/

/-- C6: every data loader built by `_create_data_loader` wraps the dataset in a
`DistributedSampler` and hands the framework batch size `hparams.batch_size`,
8 worker processes and pinned memory; the module does no sampling or batching of
its own. -/
theorem create_data_loader_delegates {T : Type} (hp : HParams) (t : T)
    (data_partition : String) (sample_rate : Option ℚ) :
    (_create_data_loader hp t data_partition sample_rate).sampler
        = Sampler.distributed (_create_data_loader hp t data_partition sample_rate).dataset
    ∧ (_create_data_loader hp t data_partition sample_rate).batch_size = hp.batch_size
    ∧ (_create_data_loader hp t data_partition sample_rate).num_workers = 8
    ∧ (_create_data_loader hp t data_partition sample_rate).pin_memory = true :=
  ⟨rfl, rfl, rfl, rfl⟩

/-- C7: `test_dataloader` always builds its dataset with `sample_rate` exactly 1,
whatever `hparams.sample_rate` is; and `_create_data_loader` substitutes
`hparams.sample_rate` whenever its `sample_rate` argument is falsy (`None` or 0),
so an explicit 0 is silently replaced. -/
theorem test_dataloader_sample_rate_one {T : Type} (hooks : TransformHooks T)
    (hp : HParams) (t : T) (h : hooks.test_data_transform = Except.ok t) :
    test_dataloader hooks hp
        = Except.ok (_create_data_loader hp t ("test") (some 1))
    ∧ (_create_data_loader hp t ("test") (some 1)).dataset.sample_rate = 1
    ∧ (∀ dp : String,
        (_create_data_loader hp t dp none).dataset.sample_rate = hp.sample_rate)
    ∧ (∀ dp : String,
        (_create_data_loader hp t dp (some 0)).dataset.sample_rate = hp.sample_rate) := by
  refine ⟨?_, ?_, fun dp => rfl, fun dp => ?_⟩
  · simp [test_dataloader, h, Except.bind]
  · simp [_create_data_loader, pyOrSampleRate]
  · simp [_create_data_loader, pyOrSampleRate]

/-- C7 witness: a concrete hooks record whose test transform succeeds. -/
theorem test_dataloader_sample_rate_one_witness :
    ({ train_data_transform := Except.error PyErr.notImplementedError
       val_data_transform := Except.error PyErr.notImplementedError
       test_data_transform := Except.ok 3 } : TransformHooks ℕ).test_data_transform
        = Except.ok 3
    ∧ (test_dataloader
          ({ train_data_transform := Except.error PyErr.notImplementedError
             val_data_transform := Except.error PyErr.notImplementedError
             test_data_transform := Except.ok 3 } : TransformHooks ℕ)
          { sample_rate := 1/2, batch_size := 4, data_path := ["data"],
            challenge := "singlecoil", exp_dir := ["experiments"], exp := "run1" }
        = Except.ok (_create_data_loader
            { sample_rate := 1/2, batch_size := 4, data_path := ["data"],
              challenge := "singlecoil", exp_dir := ["experiments"], exp := "run1" }
            3 ("test") (some 1))
      ∧ (_create_data_loader
            { sample_rate := 1/2, batch_size := 4, data_path := ["data"],
              challenge := "singlecoil", exp_dir := ["experiments"], exp := "run1" }
            3 ("test") (some 1)).dataset.sample_rate = 1
      ∧ (∀ dp : String,
          (_create_data_loader
              { sample_rate := 1/2, batch_size := 4, data_path := ["data"],
                challenge := "singlecoil", exp_dir := ["experiments"], exp := "run1" }
              3 dp none).dataset.sample_rate
            = ({ sample_rate := 1/2, batch_size := 4, data_path := ["data"],
                 challenge := "singlecoil", exp_dir := ["experiments"],
                 exp := "run1" } : HParams).sample_rate)
      ∧ (∀ dp : String,
          (_create_data_loader
              { sample_rate := 1/2, batch_size := 4, data_path := ["data"],
                challenge := "singlecoil", exp_dir := ["experiments"], exp := "run1" }
              3 dp (some 0)).dataset.sample_rate
            = ({ sample_rate := 1/2, batch_size := 4, data_path := ["data"],
                 challenge := "singlecoil", exp_dir := ["experiments"],
                 exp := "run1" } : HParams).sample_rate)) :=
  ⟨rfl, test_dataloader_sample_rate_one _ _ 3 rfl⟩

/-- C3 counterexample: `MRIModel.train_data_transform` raises
`NotImplementedError` as part of the module's own logic, so it is false that no
method of `MRIModel` raises an exception of its own. -/
theorem train_data_transform_raises :
    (baseHooks ℕ).train_data_transform = Except.error PyErr.notImplementedError :=
  rfl

/-- C3 amended: the module's own `raise` statements are exactly the three
data-transform hooks, each of which raises `NotImplementedError` unconditionally
in the base class; the three dataloader hooks propagate that error. -/
theorem only_transform_hooks_raise (T : Type) (hp : HParams) :
    (baseHooks T).train_data_transform = Except.error PyErr.notImplementedError
    ∧ (baseHooks T).val_data_transform = Except.error PyErr.notImplementedError
    ∧ (baseHooks T).test_data_transform = Except.error PyErr.notImplementedError
    ∧ train_dataloader (baseHooks T) hp = Except.error PyErr.notImplementedError
    ∧ val_dataloader (baseHooks T) hp = Except.error PyErr.notImplementedError
    ∧ test_dataloader (baseHooks T) hp = Except.error PyErr.notImplementedError :=
  ⟨rfl, rfl, rfl, rfl, rfl, rfl⟩

/-- C5: `test_end` hands `save_reconstructions` the stacked per-filename volumes
and the directory `hparams.exp_dir / hparams.exp / 'reconstructions'`, and returns
an empty dict. -/
theorem test_end_saves_reconstructions (hp : HParams) (logs : List ValLog) :
    (test_end hp logs).1.dir = hp.exp_dir ++ [hp.exp, "reconstructions"]
    ∧ (test_end hp logs).1.volumes
        = (keysA (outputsMap logs)).map
            (fun f => (f, stackSorted (lookupA (outputsMap logs) f)))
    ∧ (test_end hp logs).2 = [] :=
  ⟨rfl, rfl, rfl⟩

/-- C1: `_evaluate` groups the per-slice outputs and targets by filename, sorts
each filename's entries in ascending slice order, and stacks them into one volume
per filename; `test_end` performs the same grouping, sorting and stacking before
saving.  Each bucket fed to `sorted` is a permutation of exactly that filename's
entries from the log stream, the sorted bucket is ascending in slice index, there
is one volume per distinct filename, `_evaluate` consumes exactly these stacked
volumes, and `test_end` saves exactly these stacked volumes. -/
theorem evaluate_and_test_end_group_sort_stack (hp : HParams) (logs : List ValLog)
    (nmseF ssimF psnrF : List Image → List Image → ℚ) :
    (∀ f : String,
        (sortPairs (lookupA (outputsMap logs) f)).Perm
            (((allEntriesO logs).filter fun e => e.1 = f).map fun e => e.2)
      ∧ (sortPairs (lookupA (outputsMap logs) f)).Pairwise (fun a b => a.1 ≤ b.1)
      ∧ (sortPairs (lookupA (targetsMap logs) f)).Perm
            (((allEntriesT logs).filter fun e => e.1 = f).map fun e => e.2)
      ∧ (sortPairs (lookupA (targetsMap logs) f)).Pairwise (fun a b => a.1 ≤ b.1))
    ∧ (keysA (outputsMap logs)).Nodup
    ∧ (∀ f : String,
        f ∈ keysA (outputsMap logs) ↔ f ∈ (allEntriesO logs).map fun e => e.1)
    ∧ (_evaluate nmseF ssimF psnrF logs).nmse
        = npMean ((keysA (outputsMap logs)).map fun f =>
            nmseF (stackSorted (lookupA (targetsMap logs) f))
              (stackSorted (lookupA (outputsMap logs) f)))
    ∧ (test_end hp logs).1.volumes
        = (keysA (outputsMap logs)).map
            fun f => (f, stackSorted (lookupA (outputsMap logs) f)) := by
  refine ⟨fun f => ⟨?_, sortPairs_sorted _, ?_, sortPairs_sorted _⟩,
    nodup_keysA_outputsMap logs, fun f => mem_keysA_outputsMap logs f, rfl, rfl⟩
  · rw [lookupA_outputsMap]
    exact sortPairs_perm _
  · rw [lookupA_targetsMap]
    exact sortPairs_perm _

/-- C2: on a non-empty log list `validation_end` returns the arithmetic means:
`val_loss` is the mean of the per-batch losses, and `nmse`, `ssim`, `psnr` are the
means of the per-volume metric values, one value per distinct filename of the
logs (the volumes being those of the log list after `_visualize`'s in-place
shift); the same four values are repeated under the `log` key. -/
theorem validation_end_reports_metric_means
    (nmseF ssimF psnrF : List Image → List Image → ℚ) (logs : List ValLog)
    (h : logs ≠ []) :
    ∃ r imgs, validation_end nmseF ssimF psnrF logs = Except.ok (r, imgs)
      ∧ r.val_loss = npMean (logs.map fun log => log.val_loss)
      ∧ r.nmse = npMean ((keysA (outputsMap logs)).map fun f =>
          nmseF (stackSorted (lookupA (targetsMap (visLogs logs)) f))
            (stackSorted (lookupA (outputsMap (visLogs logs)) f)))
      ∧ r.ssim = npMean ((keysA (outputsMap logs)).map fun f =>
          ssimF (stackSorted (lookupA (targetsMap (visLogs logs)) f))
            (stackSorted (lookupA (outputsMap (visLogs logs)) f)))
      ∧ r.psnr = npMean ((keysA (outputsMap logs)).map fun f =>
          psnrF (stackSorted (lookupA (targetsMap (visLogs logs)) f))
            (stackSorted (lookupA (outputsMap (visLogs logs)) f)))
      ∧ (keysA (outputsMap logs)).Nodup
      ∧ (∀ f : String,
          f ∈ keysA (outputsMap logs) ↔ f ∈ (allEntriesO logs).map fun e => e.1)
      ∧ r.log.val_loss = r.val_loss ∧ r.log.nmse = r.nmse
      ∧ r.log.ssim = r.ssim ∧ r.log.psnr = r.psnr := by
  refine ⟨_evaluate nmseF ssimF psnrF (visLogs logs), visImageLogs logs,
    ?_, ?_, ?_, ?_, ?_,
    nodup_keysA_outputsMap logs, fun f => mem_keysA_outputsMap logs f,
    rfl, rfl, rfl, rfl⟩
  · unfold validation_end
    rw [_visualize_eq logs h]
    rfl
  · show npMean ((visLogs logs).map fun log => log.val_loss) = _
    rw [visLogs_map_val_loss]
  · show npMean ((keysA (outputsMap (visLogs logs))).map _) = _
    rw [keysA_outputsMap_visLogs]
  · show npMean ((keysA (outputsMap (visLogs logs))).map _) = _
    rw [keysA_outputsMap_visLogs]
  · show npMean ((keysA (outputsMap (visLogs logs))).map _) = _
    rw [keysA_outputsMap_visLogs]

/-- C9: `validation_end` first performs the visualization logging — adding the
`Target`, `Reconstruction` and `Error` grids, in that order — and then computes
and returns the metrics via `_evaluate`, evaluated on the post-visualization
state of the log list. -/
theorem validation_end_visualizes_then_evaluates
    (nmseF ssimF psnrF : List Image → List Image → ℚ)
    (logs logs' : List ValLog) (imgs : List ImageLog)
    (h : _visualize logs = Except.ok (logs', imgs)) :
    validation_end nmseF ssimF psnrF logs
        = Except.ok (_evaluate nmseF ssimF psnrF logs', imgs)
    ∧ imgs.map (fun il => il.tag) = ["Target", "Reconstruction", "Error"] := by
  constructor
  · unfold validation_end
    rw [h]
    rfl
  · by_cases he : logs = []
    · subst he
      exact absurd h (by simp [_visualize])
    · rw [_visualize_eq logs he] at h
      have h' := Except.ok.inj h
      have himgs : visImageLogs logs = imgs := congrArg Prod.snd h'
      rw [← himgs]
      rfl

/-- C8: for a non-empty list of `n` logs `_visualize` samples with stride
`(n + 15) // 16` and logs at most 16 images into each of the `Target`,
`Reconstruction` and `Error` grids; for the empty list the stride is 0, `range`
raises `ValueError`, and `validation_end` raises without logging anything. -/
theorem visualize_at_most_16_and_empty_raises
    (nmseF ssimF psnrF : List Image → List Image → ℚ)
    (logs : List ValLog) (h : logs ≠ []) :
    (_visualize logs = Except.ok (visLogs logs, visImageLogs logs)
      ∧ (∀ il ∈ visImageLogs logs, il.images.length ≤ 16)
      ∧ (visImageLogs logs).map (fun il => il.tag)
          = ["Target", "Reconstruction", "Error"]
      ∧ (sampleIdxs logs.length ((logs.length + 15) / 16)).length ≤ 16)
    ∧ ((logs.length + 15) / 16 = 0 → False)
    ∧ _visualize ([] : List ValLog) = Except.error PyErr.valueError
    ∧ validation_end nmseF ssimF psnrF ([] : List ValLog)
        = Except.error PyErr.valueError := by
  have hn : 0 < logs.length := List.length_pos.mpr h
  have hle := sampleIdxs_length_le logs.length hn
  refine ⟨⟨_visualize_eq logs h, ?_, rfl, hle⟩, by omega, rfl, rfl⟩
  intro il hil
  simp only [visImageLogs, List.mem_cons, List.not_mem_nil, or_false] at hil
  rcases hil with rfl | rfl | rfl
  · simpa using hle
  · simpa using hle
  · have hz := List.length_zipWith
      (fun (t o : Image) => t.zipWith (fun a b => |a - b|) o)
      ((sampleIdxs logs.length ((logs.length + 15) / 16)).map fun i =>
        normalizeRet ((logs.getD i default).target.headD []))
      ((sampleIdxs logs.length ((logs.length + 15) / 16)).map fun i =>
        normalizeRet ((logs.getD i default).output.headD []))
    simp only [absDiff]
    simp only [List.length_map] at hz ⊢
    rw [hz]
    omega

/-- C4: `_visualize` mutates its input in place: for a sampled index, the stored
`output` and `target` arrays of that log have their first batch element replaced
by the min-shifted array, and `validation_end` then evaluates the metrics on this
mutated log list rather than the original reconstructions. -/
theorem visualize_mutation_feeds_evaluate
    (nmseF ssimF psnrF : List Image → List Image → ℚ)
    (logs : List ValLog) (i : ℕ)
    (hi : i ∈ sampleIdxs logs.length ((logs.length + 15) / 16)) :
    validation_end nmseF ssimF psnrF logs
        = Except.ok (_evaluate nmseF ssimF psnrF (visLogs logs), visImageLogs logs)
    ∧ (visLogs logs).getD i default = mutateLog (logs.getD i default)
    ∧ ((visLogs logs).getD i default).output
        = ((logs.getD i default).output).set 0
            (shiftMin ((logs.getD i default).output.headD []))
    ∧ ((visLogs logs).getD i default).target
        = ((logs.getD i default).target).set 0
            (shiftMin ((logs.getD i default).target.headD [])) := by
  have hlt : i < logs.length := mem_sampleIdxs_lt hi
  have hne : logs ≠ [] := by
    intro hh
    subst hh
    simp at hlt
  have hmut : (visLogs logs).getD i default = mutateLog (logs.getD i default) :=
    foldl_modifyAt_mem mutateLog _ logs i default (nodup_sampleIdxs _ _) hi hlt
  refine ⟨?_, hmut, ?_, ?_⟩
  · unfold validation_end
    rw [_visualize_eq logs hne]
    rfl
  · rw [hmut]
    rfl
  · rw [hmut]
    rfl

/-! ### Concrete inputs for the witnesses -/

/-- A concrete validation log used by the witnesses below: one batch of two
slices from two files. -/
def wLog : ValLog :=
  { val_loss := 2, fname := ["file1", "file0"], slice := [1, 0],
    output := [[3, 5], [4, 6]], target := [[7, 9], [8, 10]] }

/-- A concrete stand-in for the external `evaluate.nmse`. -/
def wNm (t o : List Image) : ℚ := t.flatten.sum - o.flatten.sum

/-- A concrete stand-in for the external `evaluate.ssim`. -/
def wSs (t o : List Image) : ℚ := (t.length : ℚ) + (o.length : ℚ)

/-- A concrete stand-in for the external `evaluate.psnr`. -/
def wPs (t o : List Image) : ℚ := (t.flatten.length : ℚ) * (o.flatten.length : ℚ)

/-- C2 witness: the means theorem applied to a concrete one-log list. -/
theorem validation_end_reports_metric_means_witness :
    ([wLog] : List ValLog) ≠ []
    ∧ ∃ r imgs, validation_end wNm wSs wPs [wLog] = Except.ok (r, imgs)
      ∧ r.val_loss = npMean (([wLog] : List ValLog).map fun log => log.val_loss)
      ∧ r.nmse = npMean ((keysA (outputsMap [wLog])).map fun f =>
          wNm (stackSorted (lookupA (targetsMap (visLogs [wLog])) f))
            (stackSorted (lookupA (outputsMap (visLogs [wLog])) f)))
      ∧ r.ssim = npMean ((keysA (outputsMap [wLog])).map fun f =>
          wSs (stackSorted (lookupA (targetsMap (visLogs [wLog])) f))
            (stackSorted (lookupA (outputsMap (visLogs [wLog])) f)))
      ∧ r.psnr = npMean ((keysA (outputsMap [wLog])).map fun f =>
          wPs (stackSorted (lookupA (targetsMap (visLogs [wLog])) f))
            (stackSorted (lookupA (outputsMap (visLogs [wLog])) f)))
      ∧ (keysA (outputsMap [wLog])).Nodup
      ∧ (∀ f : String,
          f ∈ keysA (outputsMap [wLog]) ↔ f ∈ (allEntriesO [wLog]).map fun e => e.1)
      ∧ r.log.val_loss = r.val_loss ∧ r.log.nmse = r.nmse
      ∧ r.log.ssim = r.ssim ∧ r.log.psnr = r.psnr :=
  ⟨by decide, validation_end_reports_metric_means wNm wSs wPs [wLog] (by decide)⟩

/-- C9 witness: the ordering theorem applied to a concrete one-log list. -/
theorem validation_end_visualizes_then_evaluates_witness :
    _visualize [wLog] = Except.ok (visLogs [wLog], visImageLogs [wLog])
    ∧ (validation_end wNm wSs wPs [wLog]
          = Except.ok (_evaluate wNm wSs wPs (visLogs [wLog]), visImageLogs [wLog])
      ∧ (visImageLogs [wLog]).map (fun il => il.tag)
          = ["Target", "Reconstruction", "Error"]) :=
  ⟨_visualize_eq [wLog] (by decide),
   validation_end_visualizes_then_evaluates wNm wSs wPs [wLog] (visLogs [wLog])
     (visImageLogs [wLog]) (_visualize_eq [wLog] (by decide))⟩

/-- C8 witness: the sampling-bound theorem applied to a concrete one-log list. -/
theorem visualize_at_most_16_witness :
    ([wLog] : List ValLog) ≠ []
    ∧ ((_visualize [wLog] = Except.ok (visLogs [wLog], visImageLogs [wLog])
        ∧ (∀ il ∈ visImageLogs [wLog], il.images.length ≤ 16)
        ∧ (visImageLogs [wLog]).map (fun il => il.tag)
            = ["Target", "Reconstruction", "Error"]
        ∧ (sampleIdxs ([wLog] : List ValLog).length
            ((([wLog] : List ValLog).length + 15) / 16)).length ≤ 16)
      ∧ ((([wLog] : List ValLog).length + 15) / 16 = 0 → False)
      ∧ _visualize ([] : List ValLog) = Except.error PyErr.valueError
      ∧ validation_end wNm wSs wPs ([] : List ValLog)
          = Except.error PyErr.valueError) :=
  ⟨by decide, visualize_at_most_16_and_empty_raises wNm wSs wPs [wLog] (by decide)⟩

/-- C4 witness: the mutation theorem applied to a concrete one-log list at the
sampled index 0. -/
theorem visualize_mutation_witness :
    (0 ∈ sampleIdxs ([wLog] : List ValLog).length
        ((([wLog] : List ValLog).length + 15) / 16))
    ∧ (validation_end wNm wSs wPs [wLog]
          = Except.ok (_evaluate wNm wSs wPs (visLogs [wLog]), visImageLogs [wLog])
      ∧ (visLogs [wLog]).getD 0 default
          = mutateLog (([wLog] : List ValLog).getD 0 default)
      ∧ ((visLogs [wLog]).getD 0 default).output
          = ((([wLog] : List ValLog).getD 0 default).output).set 0
              (shiftMin ((([wLog] : List ValLog).getD 0 default).output.headD []))
      ∧ ((visLogs [wLog]).getD 0 default).target
          = ((([wLog] : List ValLog).getD 0 default).target).set 0
              (shiftMin ((([wLog] : List ValLog).getD 0 default).target.headD []))) :=
  ⟨by decide, visualize_mutation_feeds_evaluate wNm wSs wPs [wLog] 0 (by decide)⟩

end MRIModel
